import Mathlib

/-!
Verification development for fbscrape.

Strings are modelled as `List Char`.  Python functions that can raise are
modelled with `Option`/`Except`; machine-level detail (file descriptors,
subprocess spawning) is modelled by explicit outcome values.
-/

namespace Fbscrape

/-! ## uid generation (src/fbscrape/storage.py, writers.py: generate_uid) -/

/-- The canonical host start required by the assert in `generate_uid`:
`url.startswith('https://mbasic.')` (15 characters). -/
def urlStart : List Char := ("https://mbasic.").toList

/-- Python `str.replace(old, new)` for a single-character pattern: every
occurrence of `old` is replaced by `new`. -/
def replaceChar (old new : Char) (s : List Char) : List Char :=
  s.map (fun c => if c = old then new else c)

/-- `generate_uid(url)`: asserts the canonical host start, then returns
`url[15:].replace('/', '-')`.  An assertion failure is modelled as `none`. -/
def generate_uid (url : List Char) : Option (List Char) :=
  if urlStart.isPrefixOf url then
    some (replaceChar '/' '-' (url.drop 15))
  else
    none

/-- Inverse substitution used to invert `replaceChar '/' '-'` on inputs
that contain no dash. -/
def undoReplace (s : List Char) : List Char :=
  s.map (fun c => if c = '-' then '/' else c)

/-! ## ArchiveSession close (src/fbscrape/storage.py: StorageDirectory.__exit__)

`__exit__` writes the README, runs `git add -A` through `subprocess.run`
(which does not raise on a nonzero exit status) and, only when the add
returned exit status 0, runs `git commit`, whose exit status is never
inspected. -/

/-- Observable steps performed by `StorageDirectory.__exit__`. -/
inductive ExitStep where
  | writeReadme
  | gitAdd
  | gitCommit
deriving DecidableEq

/-- `StorageDirectory.__exit__` as a function of the two git exit codes:
returns the list of executed steps and whether an exception surfaced to the
caller.  `subprocess.run` without `check=True` never raises on a nonzero
exit status, so the commit exit code is never inspected and no error ever
surfaces. -/
def storageDirExit (addReturncode commitReturncode : Int) : List ExitStep × Bool :=
  if addReturncode = 0 then
    ([ExitStep.writeReadme, ExitStep.gitAdd, ExitStep.gitCommit], false)
  else
    ([ExitStep.writeReadme, ExitStep.gitAdd], false)

/-! ## main loop (src/fbscrape/main.py: main)

For each event URL, `get_event` is called inside `try`; an exception there
is logged, sets the error flag, increments `failed_events`, and the loop
continues.  `d.write_event(event)` runs in the `else:` clause of the `try`,
outside its protection: an exception there propagates and aborts the whole
run. -/

/-- Outcome of processing one event URL: the scrape (`get_event`, which
includes date parsing) either raises, or yields an event whose subsequent
`write_event` either raises or succeeds. -/
inductive EventOutcome where
  | fetchError
  | fetched (writeFails : Bool)
deriving DecidableEq

structure RunResult where
  failedEvents : Nat
  writtenEvents : Nat
  aborted : Bool
deriving DecidableEq

/-- The per-URL loop of `main`.  `get_event` failures are caught, counted in
`failed_events`, and the loop continues; a `write_event` failure is not
inside the `try` and aborts the run (remaining URLs unprocessed). -/
def mainLoop (failed written : Nat) : List EventOutcome → RunResult
  | [] => ⟨failed, written, false⟩
  | EventOutcome.fetchError :: rest => mainLoop (failed + 1) written rest
  | EventOutcome.fetched true :: _ => ⟨failed, written, true⟩
  | EventOutcome.fetched false :: rest => mainLoop failed (written + 1) rest

/-- Number of URLs whose scrape raises. -/
def countFetchErrors (l : List EventOutcome) : Nat :=
  l.countP (fun o => o = EventOutcome.fetchError)

/-- Number of URLs scraped and written successfully. -/
def countWritten (l : List EventOutcome) : Nat :=
  l.countP (fun o => o = EventOutcome.fetched false)

/-! ## date/time resolver (src/fbscrape/date.py)

A `datetime.time` carrying a fixed-offset timezone is `TimeVal`; an aware
`datetime.datetime` is `DateTimeVal` (calendar day as a day number,
wall-clock hour and minute, UTC offset in minutes; seconds and microseconds
are always zero in this program).  Python compares aware datetimes by their
UTC instant, modelled by `instant`. -/

structure TimeVal where
  hour : Int
  minute : Int
  tz : Int
deriving DecidableEq

structure DateTimeVal where
  date : Int
  hour : Int
  minute : Int
  tz : Int
deriving DecidableEq

/-- UTC instant of an aware datetime, in minutes. -/
def instant (dt : DateTimeVal) : Int :=
  (dt.date * 24 + dt.hour) * 60 + dt.minute - dt.tz

/-- `datetime.datetime.combine(date, time)`. -/
def combine (d : Int) (t : TimeVal) : DateTimeVal :=
  ⟨d, t.hour, t.minute, t.tz⟩

/-- `dt + datetime.timedelta(days=n)` (wall-clock day arithmetic). -/
def addDays (dt : DateTimeVal) (n : Int) : DateTimeVal :=
  { dt with date := dt.date + n }

/-- `dt.replace(hour=0, minute=0, second=0, microsecond=0)`. -/
def replaceMidnight (dt : DateTimeVal) : DateTimeVal :=
  { dt with hour := 0, minute := 0 }

/-- Python `str.ljust(width, fill)`. -/
def ljust (s : List Char) (width : Nat) (fill : Char) : List Char :=
  s ++ List.replicate (width - s.length) fill

/-- `pad_utc_offset(m)`: the matched offset substring becomes
`m[0].ljust(8, '0')`. -/
def pad_utc_offset (s : List Char) : List Char :=
  ljust s 8 '0'

/-- Longest leading run of decimal digits and the remaining suffix; models
the greedy `\d+` of `utc_regex = re.compile(r'UTC[+-]\d+')`. -/
def digitRun : List Char → List Char × List Char
  | [] => ([], [])
  | c :: cs =>
    if c.isDigit then ((digitRun cs).1.cons c, (digitRun cs).2)
    else ([], c :: cs)

/-- `fix_utc_offset(t)`: `utc_regex.sub(pad_utc_offset, t)` — scan left to
right; at each position a match of `UTC[+-]\d+` (greedy digits) is replaced
by its padding and scanning resumes after the match; otherwise one
character is copied. -/
def fix_utc_offset (s : List Char) : List Char :=
  match s with
  | 'U' :: 'T' :: 'C' :: c :: cs =>
    if (c = '+' ∨ c = '-') ∧ (digitRun cs).1 ≠ [] then
      pad_utc_offset ('U' :: 'T' :: 'C' :: c :: (digitRun cs).1) ++
        fix_utc_offset (digitRun cs).2
    else
      'U' :: fix_utc_offset ('T' :: 'C' :: c :: cs)
  | c :: cs => c :: fix_utc_offset cs
  | [] => []
termination_by s.length
decreasing_by
  · simp only [List.length_cons]
    have hh : ∀ l : List Char, (digitRun l).2.length ≤ l.length := by
      intro l
      induction l with
      | nil => simp [digitRun]
      | cons a as ih =>
        by_cases ha : a.isDigit
        · simp [digitRun, ha]
          omega
        · simp [digitRun, ha]
    have := hh cs
    omega
  · simp only [List.length_cons]
    omega
  · simp only [List.length_cons]
    omega

/-- Numeric value of a decimal digit character. -/
def digitVal (c : Char) : Int :=
  (c.toNat : Int) - 48

/-- `%z` of `time.strptime` on the forms this program feeds it after
padding: a sign followed by two-digit hours and two-digit minutes, giving
`tm_gmtoff`; `datetime.timezone` then requires the offset to be strictly
between -24 and +24 hours (otherwise `ValueError`). -/
def strptime_z : List Char → Option Int
  | sign :: h1 :: h2 :: m1 :: m2 :: [] =>
    if (sign = '+' ∨ sign = '-') ∧ h1.isDigit ∧ h2.isDigit ∧ m1.isDigit ∧ m2.isDigit then
      let v := 60 * (10 * digitVal h1 + digitVal h2) + (10 * digitVal m1 + digitVal m2)
      let off := if sign = '+' then v else -v
      if -1440 < off ∧ off < 1440 then some off else none
    else none
  | _ => none

/-- `time.strptime(_, '%H:%M UTC%z')` on two-digit hour and minute (the
forms produced by the source site), followed by
`datetime.time(*tm[3:6], tzinfo)`: hour at most 23, minute at most 59. -/
def strptime_time (s : List Char) : Option TimeVal :=
  match s with
  | h1 :: h2 :: ':' :: m1 :: m2 :: ' ' :: 'U' :: 'T' :: 'C' :: rest =>
    if h1.isDigit ∧ h2.isDigit ∧ m1.isDigit ∧ m2.isDigit then
      let hh := 10 * digitVal h1 + digitVal h2
      let mm := 10 * digitVal m1 + digitVal m2
      if hh ≤ 23 ∧ mm ≤ 59 then
        (strptime_z rest).map (fun off => ⟨hh, mm, off⟩)
      else none
    else none
  | _ => none

/-- `parse_time_part(t)`: pad the UTC offset inside `t`, then parse
`'%H:%M UTC%z'` into a time with a fixed-offset timezone. -/
def parse_time_part (t : List Char) : Option TimeVal :=
  strptime_time (fix_utc_offset t)

/-- The dayword captured by `date_regex`, with weekday names already mapped
to their index (Monday = 0) as `strptime(dayofweek, '%A').weekday()`
does. -/
inductive Dayword where
  | heute
  | morgen
  | weekday (w : Fin 7)
deriving DecidableEq

/-- The `while off <= 0: off += 7` loop of `parse_date_part`. -/
def weekdayLoop (off : Int) : Int :=
  if h : off ≤ 0 then weekdayLoop (off + 7) else off
termination_by (1 - off).toNat
decreasing_by
  omega

/-- `parse_date_part`: "Heute" is today, "Morgen" tomorrow; a weekday name
without an absolute date is resolved by the offset loop; otherwise the
absolute date (already parsed from `'%d. %B %Y'`) is returned. -/
def parse_date_part (today : Int) (todayWeekday : Fin 7) (dayofweek : Dayword)
    (date : Option Int) : Int :=
  match dayofweek with
  | Dayword.heute => today + 0
  | Dayword.morgen => today + 1
  | Dayword.weekday w =>
    match date with
    | none => today + weekdayLoop ((w : Int) - (todayWeekday : Int))
    | some d => d

/-- The named groups of a successful `date_regex` match, with the absolute
date group already parsed (`none` when the group is absent). -/
structure DateMatch where
  dayofweek : Dayword
  date : Option Int
  von : Option (List Char)
  bis : Option (List Char)
  um : Option (List Char)

/-- Python `m['von'] or m['um']`: an absent or empty `von` group falls back
to the `um` group. -/
def vonOrUm (von um : Option (List Char)) : Option (List Char) :=
  match von with
  | some s => if s = [] then um else some s
  | none => um

/-- The `while end <= start: end += timedelta(days=1)` loop of
`parse_date`. -/
def bumpEnd (start e : DateTimeVal) : DateTimeVal :=
  if h : instant e ≤ instant start then bumpEnd start (addDays e 1) else e
termination_by (instant start + 1 - instant e).toNat
decreasing_by
  have hh : instant (addDays e 1) = instant e + 1440 := by
    simp only [instant, addDays]
    ring
  simp only [hh]
  omega

/-- `parse_date(t)` after a successful `date_regex` match: resolve the date
part, parse the start time (`von` or `um`), build `start`; `end` is the
`bis` time on the same date, or midnight of the following day; finally bump
`end` by whole days while it does not strictly follow `start`.  `none`
models a raised `ValueError`/`TypeError` from time parsing. -/
def parse_date (today : Int) (todayWeekday : Fin 7) (m : DateMatch) :
    Option (DateTimeVal × DateTimeVal) :=
  let date := parse_date_part today todayWeekday m.dayofweek m.date
  match vonOrUm m.von m.um with
  | none => none
  | some vonum =>
    match parse_time_part vonum with
    | none => none
    | some startTime =>
      let start := combine date startTime
      match m.bis with
      | some b =>
        match parse_time_part b with
        | none => none
        | some endTime => some (start, bumpEnd start (combine date endTime))
      | none => some (start, bumpEnd start (addDays (replaceMidnight start) 1))

/-! ## ChangeDetector (src/fbscrape/storage.py, writers.py: compare_vevents)

An `icalendar.Event` is dict-like; it is modelled as an association list
from field names to decoded values.  `event.decoded(k)` is the value
lookup, `event1.keys() | event2.keys()` the key-set union. -/

/-- Python `str.lower()` on one ASCII character. -/
def lowerChar (c : Char) : Char :=
  if 'A' ≤ c ∧ c ≤ 'Z' then Char.ofNat (c.toNat + 32) else c

/-- Python `k.lower()` (field names are ASCII). -/
def pyLower (s : List Char) : List Char :=
  s.map lowerChar

/-- The field names of a component, `event.keys()`. -/
def fieldKeys {V : Type} (e : List (List Char × V)) : List (List Char) :=
  e.map Prod.fst

/-- `event1.keys() | event2.keys()`, as a duplicate-free-per-side union. -/
def keysUnion {V : Type} (e1 e2 : List (List Char × V)) : List (List Char) :=
  fieldKeys e1 ++ (fieldKeys e2).filter (fun k => decide (k ∉ fieldKeys e1))

/-- `event.decoded(k)` / `event[k]` lookup, `none` when `k` is absent. -/
def getField {V : Type} (e : List (List Char × V)) (k : List Char) : Option V :=
  (e.find? (fun kv => kv.1 == k)).map Prod.snd

/-- `compare_vevents(event1, event2)`: for every key in the union, skip the
volatile `dtstamp` key (case-insensitively); a key present in both sides
must have equal decoded values; a key present on only one side makes the
events differ. -/
def compare_vevents {V : Type} [DecidableEq V] (e1 e2 : List (List Char × V)) : Bool :=
  (keysUnion e1 e2).all (fun k =>
    if pyLower k = ("dtstamp").toList then true
    else
      match getField e1 k, getField e2 k with
      | some v1, some v2 => v1 = v2
      | _, _ => false)

/-! ## SnapshotStore (src/fbscrape/storage.py: StorageDirectory) -/

/-- Decoded value of a VEVENT field: a text field or a UTC timestamp. -/
inductive VVal where
  | str (s : List Char)
  | stamp (t : Int)
deriving DecidableEq

instance : Inhabited VVal := ⟨VVal.stamp 0⟩

/-- A VEVENT component: field names to decoded values. -/
abbrev VEvent : Type := List (List Char × VVal)

/-- The fields of `FBEvent` consumed by `create_vevent` and `write_event`
(src/fbscrape/main.py: FBEvent); `stop` is the `end` attribute. -/
structure EventData where
  url : List Char
  title : List Char
  start : DateTimeVal
  stop : DateTimeVal
  location : List Char
  details : Option (List Char)
  screenshot : Option (List Nat)

/-- `create_vevent(event)`: `dtstamp` is `datetime.now(utc)` at creation
time (`now`); `dtstart`/`dtend` are the event instants converted to UTC;
a falsy (absent or empty) `details` adds no description.  The `uid` is the
value `generate_uid(event.url)` returns when its assert holds (the
collector's contract supplies the canonical host start). -/
def create_vevent (now : Int) (e : EventData) : VEvent :=
  [(("UID").toList, VVal.str (replaceChar '/' '-' (e.url.drop 15))),
   (("URL").toList, VVal.str e.url),
   (("DTSTAMP").toList, VVal.stamp now),
   (("DTSTART").toList, VVal.stamp (instant e.start)),
   (("DTEND").toList, VVal.stamp (instant e.stop)),
   (("SUMMARY").toList, VVal.str e.title),
   (("LOCATION").toList, VVal.str e.location)] ++
  (match e.details with
   | some d => if d = [] then [] else [(("DESCRIPTION").toList, VVal.str d)]
   | none => [])

/-- `event[k] = v` on a dict-like component whose key `k` is present:
replace the value stored under `k`. -/
def setField (e : VEvent) (k : List Char) (v : VVal) : VEvent :=
  e.map (fun kv => if kv.1 = k then (k, v) else kv)

/-- The two exception kinds `_fix_dtstamp` catches around `read_event`: a
missing file (`FileNotFoundError`) and one that fails to parse
(`ValueError`). -/
inductive ReadErr where
  | fileNotFound
  | valueError
deriving DecidableEq

/-- `StorageDirectory._fix_dtstamp(event)`: a failed `read_event` is logged
as "new event" and returns `False` (changed); an unchanged comparison
copies the old `DTSTAMP` onto the new event and returns `True`.  The result
pairs the (possibly patched) event with the returned flag; `none` models
the `KeyError` raised when the old event misses `DTSTAMP` (impossible for
files this program wrote). -/
def fix_dtstamp (prior : Except ReadErr VEvent) (ev : VEvent) :
    Option (VEvent × Bool) :=
  match prior with
  | Except.error _ => some (ev, false)
  | Except.ok old =>
    if compare_vevents ev old then
      match getField old (("DTSTAMP").toList) with
      | some v => some (setField ev (("DTSTAMP").toList) v, true)
      | none => none
    else some (ev, false)

/-- Outcome of `StorageDirectory.write_event`: the durable `.ics` content
(modelled by its decoded field list — serialization is a fixed injective
encoding of it), the screenshot bytes when the sibling `.png` was
(re)written, and whether a `TypeError` was raised by `tmp.write(None)`
after the durable file had already been written. -/
structure WriteResult where
  ics : VEvent
  png : Option (List Nat)
  raised : Bool

/-- `StorageDirectory.write_event(event)`: build the VEVENT, run
`_fix_dtstamp` (its `True` means unchanged), atomically write the durable
file unconditionally, then write the screenshot only when the content was
classified as changed. -/
def write_event (now : Int) (prior : Except ReadErr VEvent) (e : EventData) :
    Option WriteResult :=
  (fix_dtstamp prior (create_vevent now e)).map (fun r =>
    if r.2 then ⟨r.1, none, false⟩
    else
      match e.screenshot with
      | some b => ⟨r.1, some b, false⟩
      | none => ⟨r.1, none, true⟩)

/-! ## Sample data used by witnesses -/

/-- The time string of the spec example "Heute um 20:00 UTC+0100". -/
def time2000 : List Char := ("20:00 UTC+0100").toList

/-- The `date_regex` match of "Heute um 20:00 UTC+0100". -/
def heuteMatch : DateMatch :=
  ⟨Dayword.heute, none, none, none, some time2000⟩

/-- A canonical collected event with a screenshot. -/
def sampleEvent : EventData :=
  ⟨("https://mbasic.facebook.com/events/123").toList, ("T").toList,
   ⟨0, 20, 0, 60⟩, ⟨1, 0, 0, 60⟩, ("L").toList, none, some [1, 2, 3]⟩

/-- The same event without a screenshot. -/
def sampleEventNoShot : EventData :=
  { sampleEvent with screenshot := none }

/-! ## Helper lemmas -/

theorem urlStart_length : urlStart.length = 15 := by decide

theorem undoReplace_replaceChar (s : List Char) (hnd : '-' ∉ s) :
    undoReplace (replaceChar '/' '-' s) = s := by
  induction s with
  | nil => rfl
  | cons c cs ih =>
    simp only [List.mem_cons, not_or] at hnd
    have tail : undoReplace (replaceChar '/' '-' cs) = cs := ih hnd.2
    have hcd : ¬ c = '-' := fun h => hnd.1 h.symm
    by_cases hc : c = '/'
    · subst hc
      simpa [replaceChar, undoReplace] using tail
    · simpa [replaceChar, undoReplace, hc, hcd] using tail

theorem instant_addDays (dt : DateTimeVal) (n : Int) :
    instant (addDays dt n) = instant dt + n * 1440 := by
  simp only [instant, addDays]
  ring

theorem digitRun_all_digits (cs : List Char) (h : ∀ c ∈ cs, c.isDigit) :
    digitRun cs = (cs, []) := by
  induction cs with
  | nil => rfl
  | cons c cs ih =>
    have hc : c.isDigit := h c (List.mem_cons_self c cs)
    have ht := ih (fun x hx => h x (List.mem_cons_of_mem c hx))
    simp [digitRun, hc, ht]

theorem weekdayLoop_pos (off : Int) : 0 < weekdayLoop off := by
  unfold weekdayLoop
  split
  · exact weekdayLoop_pos (off + 7)
  · omega
termination_by (1 - off).toNat
decreasing_by
  omega

theorem weekdayLoop_of_pos (off : Int) (h : 0 < off) : weekdayLoop off = off := by
  unfold weekdayLoop
  rw [dif_neg]
  omega

theorem weekdayLoop_zero : weekdayLoop 0 = 7 := by
  unfold weekdayLoop
  rw [dif_pos (by omega)]
  exact weekdayLoop_of_pos 7 (by omega)

theorem instant_lt_bumpEnd (start e : DateTimeVal) :
    instant start < instant (bumpEnd start e) := by
  unfold bumpEnd
  split
  · exact instant_lt_bumpEnd start (addDays e 1)
  · omega
termination_by (instant start + 1 - instant e).toNat
decreasing_by
  simp only [instant_addDays]
  omega

theorem bumpEnd_of_gt (start e : DateTimeVal) (h : instant start < instant e) :
    bumpEnd start e = e := by
  unfold bumpEnd
  rw [dif_neg]
  omega

theorem mem_keysUnion {V : Type} (e1 e2 : List (List Char × V)) (k : List Char) :
    k ∈ keysUnion e1 e2 ↔ k ∈ fieldKeys e1 ∨ k ∈ fieldKeys e2 := by
  simp only [keysUnion, List.mem_append, List.mem_filter, decide_eq_true_eq]
  by_cases h1 : k ∈ fieldKeys e1 <;> tauto

theorem getField_eq_none {V : Type} (e : List (List Char × V)) (k : List Char) :
    getField e k = none ↔ k ∉ fieldKeys e := by
  simp only [getField, Option.map_eq_none', List.find?_eq_none, fieldKeys,
    List.mem_map, beq_iff_eq]
  push_neg
  tauto

theorem compare_vevents_eq_true_iff {V : Type} [DecidableEq V]
    (e1 e2 : List (List Char × V)) :
    compare_vevents e1 e2 = true ↔
      ∀ k, k ∈ fieldKeys e1 ∨ k ∈ fieldKeys e2 →
        (pyLower k = ("dtstamp").toList ∨
          ∃ v, getField e1 k = some v ∧ getField e2 k = some v) := by
  simp only [compare_vevents, List.all_eq_true]
  constructor
  · intro h k hk
    have hall := h k ((mem_keysUnion e1 e2 k).mpr hk)
    by_cases hd : pyLower k = ("dtstamp").toList
    · exact Or.inl hd
    · right
      rw [if_neg hd] at hall
      cases hg1 : getField e1 k with
      | none =>
        rw [hg1] at hall
        cases hg2 : getField e2 k with
        | none => rw [hg2] at hall; simp at hall
        | some v2 => rw [hg2] at hall; simp at hall
      | some v1 =>
        rw [hg1] at hall
        cases hg2 : getField e2 k with
        | none => rw [hg2] at hall; simp at hall
        | some v2 =>
          rw [hg2] at hall
          simp only [decide_eq_true_eq] at hall
          subst hall
          exact ⟨v1, rfl, rfl⟩
  · intro h k hk
    rcases h k ((mem_keysUnion e1 e2 k).mp hk) with hd | ⟨v, hg1, hg2⟩
    · simp [hd]
    · by_cases hd : pyLower k = ("dtstamp").toList
      · simp [hd]
      · rw [if_neg hd, hg1, hg2]
        simp

theorem compare_vevents_symm {V : Type} [DecidableEq V]
    (e1 e2 : List (List Char × V)) :
    compare_vevents e1 e2 = compare_vevents e2 e1 := by
  have key : ∀ (a b : List (List Char × V)),
      compare_vevents a b = true → compare_vevents b a = true := by
    intro a b h
    rw [compare_vevents_eq_true_iff] at h ⊢
    intro k hk
    rcases h k hk.symm with hd | ⟨v, hg1, hg2⟩
    · exact Or.inl hd
    · exact Or.inr ⟨v, hg2, hg1⟩
  cases ha : compare_vevents e1 e2 <;> cases hb : compare_vevents e2 e1
  · rfl
  · exact absurd (key e2 e1 hb) (by simp [ha])
  · exact absurd (key e1 e2 ha) (by simp [hb])
  · rfl

theorem compare_vevents_one_sided {V : Type} [DecidableEq V]
    (e1 e2 : List (List Char × V)) (k : List Char)
    (h1 : k ∈ fieldKeys e1) (h2 : k ∉ fieldKeys e2)
    (hd : pyLower k ≠ ("dtstamp").toList) :
    compare_vevents e1 e2 = false := by
  cases hc : compare_vevents e1 e2 with
  | false => rfl
  | true =>
    rcases (compare_vevents_eq_true_iff e1 e2).mp hc k (Or.inl h1) with h | ⟨v, _, hg2⟩
    · exact absurd h hd
    · exact absurd ((getField_eq_none e2 k).mpr h2) (by simp [hg2])

theorem pyLower_key_uid : pyLower ['U','I','D'] = ['u','i','d'] := by decide

theorem pyLower_key_url : pyLower ['U','R','L'] = ['u','r','l'] := by decide

theorem pyLower_key_dtstamp :
    pyLower ['D','T','S','T','A','M','P'] = ['d','t','s','t','a','m','p'] := by decide

theorem pyLower_key_dtstart :
    pyLower ['D','T','S','T','A','R','T'] = ['d','t','s','t','a','r','t'] := by decide

theorem pyLower_key_dtend :
    pyLower ['D','T','E','N','D'] = ['d','t','e','n','d'] := by decide

theorem pyLower_key_summary :
    pyLower ['S','U','M','M','A','R','Y'] = ['s','u','m','m','a','r','y'] := by decide

theorem pyLower_key_location :
    pyLower ['L','O','C','A','T','I','O','N'] = ['l','o','c','a','t','i','o','n'] := by decide

theorem pyLower_key_description :
    pyLower ['D','E','S','C','R','I','P','T','I','O','N'] =
      ['d','e','s','c','r','i','p','t','i','o','n'] := by decide

theorem getField_create_dtstamp (now : Int) (e : EventData) :
    getField (create_vevent now e) ['D','T','S','T','A','M','P'] =
      some (VVal.stamp now) := rfl

set_option maxHeartbeats 1000000 in
theorem compare_create_create (t1 t0 : Int) (e : EventData) :
    compare_vevents (create_vevent t1 e) (create_vevent t0 e) = true := by
  rcases hd : e.details with _ | d
  · simp [compare_vevents, keysUnion, fieldKeys, create_vevent, getField, hd,
      pyLower_key_uid, pyLower_key_url, pyLower_key_dtstamp, pyLower_key_dtstart,
      pyLower_key_dtend, pyLower_key_summary, pyLower_key_location,
      pyLower_key_description]
  · by_cases hde : d = [] <;>
      simp [compare_vevents, keysUnion, fieldKeys, create_vevent, getField, hd, hde,
        pyLower_key_uid, pyLower_key_url, pyLower_key_dtstamp, pyLower_key_dtstart,
        pyLower_key_dtend, pyLower_key_summary, pyLower_key_location,
        pyLower_key_description]

theorem setField_create (t1 t0 : Int) (e : EventData) :
    setField (create_vevent t1 e) ['D','T','S','T','A','M','P'] (VVal.stamp t0) =
      create_vevent t0 e := by
  rcases hd : e.details with _ | d
  · simp [setField, create_vevent, hd]
  · by_cases hde : d = [] <;> simp [setField, create_vevent, hd, hde]

theorem fix_dtstamp_unchanged (t1 t0 : Int) (e : EventData) :
    fix_dtstamp (Except.ok (create_vevent t0 e)) (create_vevent t1 e) =
      some (create_vevent t0 e, true) := by
  simp [fix_dtstamp, compare_create_create, getField_create_dtstamp, setField_create]

theorem isDigit_ne_U (c : Char) (h : c.isDigit) : c ≠ 'U' := by
  intro hc
  subst hc
  exact absurd h (by decide)

theorem fix_utc_offset_nil : fix_utc_offset [] = [] := by
  simp [fix_utc_offset]

theorem fix_utc_offset_cons_ne (c : Char) (hc : c ≠ 'U') (s : List Char) :
    fix_utc_offset (c :: s) = c :: fix_utc_offset s := by
  conv_lhs => rw [fix_utc_offset.eq_def]
  split
  · rename_i heq
    exact absurd (List.head_eq_of_cons_eq heq) hc
  · rename_i c2 cs2 heq
    cases heq
    rfl
  · rename_i heq
    exact absurd heq (List.cons_ne_nil c s)

theorem fix_utc_offset_utc_match (c : Char) (cs : List Char)
    (hsign : c = '+' ∨ c = '-') (hds : (digitRun cs).1 ≠ []) :
    fix_utc_offset ('U' :: 'T' :: 'C' :: c :: cs) =
      pad_utc_offset ('U' :: 'T' :: 'C' :: c :: (digitRun cs).1) ++
        fix_utc_offset (digitRun cs).2 := by
  conv_lhs => rw [fix_utc_offset.eq_def]
  split
  · rename_i c2 cs2 heq
    cases heq
    rw [if_pos ⟨hsign, hds⟩]
  · rename_i hnomatch heq
    cases heq
    exact absurd rfl (hnomatch c cs rfl)
  · rename_i heq
    exact absurd heq (by simp)

theorem fix_time_shape (h1 h2 m1 m2 sign : Char) (ds : List Char)
    (hd1 : h1.isDigit) (hd2 : h2.isDigit) (hd3 : m1.isDigit) (hd4 : m2.isDigit)
    (hsign : sign = '+' ∨ sign = '-') (hne : ds ≠ [])
    (hall : ∀ c ∈ ds, c.isDigit) :
    fix_utc_offset ([h1, h2, ':', m1, m2, ' ', 'U', 'T', 'C', sign] ++ ds) =
      [h1, h2, ':', m1, m2, ' '] ++ pad_utc_offset ('U' :: 'T' :: 'C' :: sign :: ds) := by
  have hrun := digitRun_all_digits ds hall
  rw [List.cons_append, List.cons_append, List.cons_append, List.cons_append,
    List.cons_append, List.cons_append, List.cons_append, List.cons_append,
    List.cons_append, List.cons_append, List.nil_append]
  rw [fix_utc_offset_cons_ne h1 (isDigit_ne_U h1 hd1),
    fix_utc_offset_cons_ne h2 (isDigit_ne_U h2 hd2),
    fix_utc_offset_cons_ne ':' (by decide),
    fix_utc_offset_cons_ne m1 (isDigit_ne_U m1 hd3),
    fix_utc_offset_cons_ne m2 (isDigit_ne_U m2 hd4),
    fix_utc_offset_cons_ne ' ' (by decide),
    fix_utc_offset_utc_match sign ds hsign (by rw [hrun]; exact hne)]
  rw [hrun]
  simp [fix_utc_offset_nil]

theorem parse_date_heute_eval (d : Int) (tw : Fin 7) :
    parse_date d tw heuteMatch = some (⟨d, 20, 0, 60⟩, ⟨d + 1, 0, 0, 60⟩) := by
  have hfix : fix_utc_offset time2000 = time2000 := by
    simp [time2000, fix_utc_offset, digitRun, pad_utc_offset, ljust]
  have hpt : parse_time_part time2000 = some ⟨20, 0, 60⟩ := by
    unfold parse_time_part
    rw [hfix]
    decide
  have hb2 : bumpEnd ⟨d, 20, 0, 60⟩ ⟨d + 1, 0, 0, 60⟩ = ⟨d + 1, 0, 0, 60⟩ := by
    apply bumpEnd_of_gt
    simp only [instant]
    omega
  simp [parse_date, heuteMatch, vonOrUm, hpt, parse_date_part, combine,
    replaceMidnight, addDays, hb2]

theorem count_split : ∀ (l : List EventOutcome),
    (∀ o ∈ l, o ≠ EventOutcome.fetched true) →
    countFetchErrors l + countWritten l = l.length
  | [], _ => rfl
  | o :: rest, h => by
    have hrest : ∀ x ∈ rest, x ≠ EventOutcome.fetched true :=
      fun x hx => h x (List.mem_cons_of_mem o hx)
    have tail := count_split rest hrest
    cases o with
    | fetchError =>
      simp [countFetchErrors, countWritten, List.countP_cons] at tail ⊢
      omega
    | fetched b =>
      cases b with
      | true => exact absurd rfl (h _ (List.mem_cons_self _ _))
      | false =>
        simp [countFetchErrors, countWritten, List.countP_cons] at tail ⊢
        omega

theorem mainLoop_no_writefail : ∀ (f w : Nat) (l : List EventOutcome),
    (∀ o ∈ l, o ≠ EventOutcome.fetched true) →
    mainLoop f w l = ⟨f + countFetchErrors l, w + countWritten l, false⟩
  | f, w, [], _ => by simp [mainLoop, countFetchErrors, countWritten]
  | f, w, o :: rest, h => by
    have hrest : ∀ x ∈ rest, x ≠ EventOutcome.fetched true :=
      fun x hx => h x (List.mem_cons_of_mem o hx)
    cases o with
    | fetchError =>
      rw [show mainLoop f w (EventOutcome.fetchError :: rest) =
        mainLoop (f + 1) w rest from rfl]
      rw [mainLoop_no_writefail (f + 1) w rest hrest]
      simp [countFetchErrors, countWritten, List.countP_cons, RunResult.mk.injEq]
      omega
    | fetched b =>
      cases b with
      | true => exact absurd rfl (h _ (List.mem_cons_self _ _))
      | false =>
        rw [show mainLoop f w (EventOutcome.fetched false :: rest) =
          mainLoop f (w + 1) rest from rfl]
        rw [mainLoop_no_writefail f (w + 1) rest hrest]
        simp [countFetchErrors, countWritten, List.countP_cons, RunResult.mk.injEq]
        omega

theorem mainLoop_writefail : ∀ (f w : Nat) (pre post : List EventOutcome),
    (∀ o ∈ pre, o ≠ EventOutcome.fetched true) →
    mainLoop f w (pre ++ EventOutcome.fetched true :: post) =
      ⟨f + countFetchErrors pre, w + countWritten pre, true⟩
  | f, w, [], post, _ => by simp [mainLoop, countFetchErrors, countWritten]
  | f, w, o :: rest, post, h => by
    have hrest : ∀ x ∈ rest, x ≠ EventOutcome.fetched true :=
      fun x hx => h x (List.mem_cons_of_mem o hx)
    cases o with
    | fetchError =>
      rw [List.cons_append,
        show mainLoop f w (EventOutcome.fetchError ::
          (rest ++ EventOutcome.fetched true :: post)) =
          mainLoop (f + 1) w (rest ++ EventOutcome.fetched true :: post) from rfl]
      rw [mainLoop_writefail (f + 1) w rest post hrest]
      simp [countFetchErrors, countWritten, List.countP_cons, RunResult.mk.injEq]
      omega
    | fetched b =>
      cases b with
      | true => exact absurd rfl (h _ (List.mem_cons_self _ _))
      | false =>
        rw [List.cons_append,
          show mainLoop f w (EventOutcome.fetched false ::
            (rest ++ EventOutcome.fetched true :: post)) =
            mainLoop f (w + 1) (rest ++ EventOutcome.fetched true :: post) from rfl]
        rw [mainLoop_writefail f (w + 1) rest post hrest]
        simp [countFetchErrors, countWritten, List.countP_cons, RunResult.mk.injEq]
        omega

/-! ## Claim theorems -/

/-- C1, counterexample: injectivity fails as stated.  The two distinct URLs
`https://mbasic.facebook.com/events/a/b` and
`https://mbasic.facebook.com/events/a-b` share the canonical host prefix and
differ in path, yet `generate_uid` maps both to the same uid, because
replacing `/` by `-` collapses a dash and a slash at the same position. -/
theorem generate_uid_collision :
    ("https://mbasic.facebook.com/events/a/b").toList ≠
      ("https://mbasic.facebook.com/events/a-b").toList ∧
    urlStart.isPrefixOf (("https://mbasic.facebook.com/events/a/b").toList) = true ∧
    urlStart.isPrefixOf (("https://mbasic.facebook.com/events/a-b").toList) = true ∧
    generate_uid (("https://mbasic.facebook.com/events/a/b").toList) =
      generate_uid (("https://mbasic.facebook.com/events/a-b").toList) := by
  decide

/-- C1, amended: `generate_uid` is deterministic (a pure function: the same
URL yields the same uid on every call), and it is injective on URLs with
the canonical host prefix provided neither URL contains a dash — the
slash-to-dash substitution is invertible exactly on dash-free inputs. -/
theorem generate_uid_stable_and_injective :
    (∀ u : List Char, generate_uid u = generate_uid u) ∧
    (∀ u1 u2 : List Char,
      urlStart.isPrefixOf u1 = true → urlStart.isPrefixOf u2 = true →
      '-' ∉ u1 → '-' ∉ u2 →
      generate_uid u1 = generate_uid u2 → u1 = u2) := by
  refine ⟨fun u => rfl, fun u1 u2 h1 h2 hd1 hd2 heq => ?_⟩
  rw [generate_uid, generate_uid, if_pos h1, if_pos h2] at heq
  have hrep := Option.some.inj heq
  have hdrop : u1.drop 15 = u2.drop 15 := by
    have d1 : '-' ∉ u1.drop 15 := fun hm => hd1 (List.mem_of_mem_drop hm)
    have d2 : '-' ∉ u2.drop 15 := fun hm => hd2 (List.mem_of_mem_drop hm)
    rw [← undoReplace_replaceChar _ d1, ← undoReplace_replaceChar _ d2, hrep]
  rcases List.isPrefixOf_iff_prefix.mp h1 with ⟨t1, ht1⟩
  rcases List.isPrefixOf_iff_prefix.mp h2 with ⟨t2, ht2⟩
  have e1 : u1.drop 15 = t1 := by rw [← ht1, ← urlStart_length, List.drop_left]
  have e2 : u2.drop 15 = t2 := by rw [← ht2, ← urlStart_length, List.drop_left]
  rw [← ht1, ← ht2, ← e1, ← e2, hdrop]

/-- C1 witness: the amended injectivity applied at the concrete dash-free
URL `https://mbasic.x/a`. -/
theorem generate_uid_stable_and_injective_witness :
    ("https://mbasic.x/a").toList = ("https://mbasic.x/a").toList :=
  generate_uid_stable_and_injective.2
    (("https://mbasic.x/a").toList) (("https://mbasic.x/a").toList)
    (by decide) (by decide) (by decide) (by decide) rfl

/-- C2, counterexample: a failing `git add` (exit status 1) does not surface
as a run-level error — `__exit__` returns normally (`false`) and merely
skips the commit, contradicting the claim that staging failure surfaces to
the caller. -/
theorem storage_exit_stage_failure_swallowed :
    storageDirExit 1 0 = ([ExitStep.writeReadme, ExitStep.gitAdd], false) := by
  decide

/-- C2, amended: on session close no error ever surfaces to the caller —
`subprocess.run` without `check=True` swallows both the staging and the
commit exit status — and the commit is attempted exactly when the staging
step exited with status 0 (commit failures are likewise swallowed: the
commit exit code is never inspected). -/
theorem storage_exit_git_policy (addReturncode commitReturncode : Int) :
    (storageDirExit addReturncode commitReturncode).2 = false ∧
    (ExitStep.gitCommit ∈ (storageDirExit addReturncode commitReturncode).1 ↔
      addReturncode = 0) := by
  by_cases h : addReturncode = 0 <;> simp [storageDirExit, h]

/-- C3, counterexample: a `write_event` failure on the first record aborts
the run — the second record is never processed (`writtenEvents = 0`,
`aborted = true`), contradicting the claim that an I/O error during
persistence is caught and processing continues. -/
theorem main_loop_aborts_on_write_failure :
    mainLoop 0 0 [EventOutcome.fetched true, EventOutcome.fetched false] =
      ⟨0, 0, true⟩ := rfl

/-- C3, amended: failures inside `get_event` (including date-parse failures)
are caught, logged, counted, and processing continues, with the aggregate
failed-versus-total count available at the end; but a failure inside
`write_event` is outside the `try` and aborts the run, leaving the
remaining records unprocessed. -/
theorem main_loop_failure_policy :
    (∀ l : List EventOutcome, (∀ o ∈ l, o ≠ EventOutcome.fetched true) →
      mainLoop 0 0 l = ⟨countFetchErrors l, countWritten l, false⟩ ∧
      countFetchErrors l + countWritten l = l.length) ∧
    (∀ pre post : List EventOutcome, (∀ o ∈ pre, o ≠ EventOutcome.fetched true) →
      mainLoop 0 0 (pre ++ EventOutcome.fetched true :: post) =
        ⟨countFetchErrors pre, countWritten pre, true⟩) := by
  constructor
  · intro l h
    refine ⟨?_, count_split l h⟩
    simpa using mainLoop_no_writefail 0 0 l h
  · intro pre post h
    simpa using mainLoop_writefail 0 0 pre post h

/-- C3 witness: the failure policy applied to a concrete run of one failed
scrape followed by one written event, and to a run aborted by a write
failure after one failed scrape. -/
theorem main_loop_failure_policy_witness :
    (mainLoop 0 0 [EventOutcome.fetchError, EventOutcome.fetched false] =
      ⟨countFetchErrors [EventOutcome.fetchError, EventOutcome.fetched false],
       countWritten [EventOutcome.fetchError, EventOutcome.fetched false], false⟩ ∧
     countFetchErrors [EventOutcome.fetchError, EventOutcome.fetched false] +
       countWritten [EventOutcome.fetchError, EventOutcome.fetched false] =
       ([EventOutcome.fetchError, EventOutcome.fetched false] : List EventOutcome).length) ∧
    mainLoop 0 0 ([EventOutcome.fetchError] ++ EventOutcome.fetched true ::
        [EventOutcome.fetched false]) =
      ⟨countFetchErrors [EventOutcome.fetchError],
       countWritten [EventOutcome.fetchError], true⟩ :=
  ⟨main_loop_failure_policy.1 [EventOutcome.fetchError, EventOutcome.fetched false]
      (by decide),
   main_loop_failure_policy.2 [EventOutcome.fetchError] [EventOutcome.fetched false]
      (by decide)⟩

/-- C4: for every accepted date expression, `parse_date` returns a pair
whose end instant strictly follows its start instant; the final
normalization loop (`bumpEnd`, a total function) establishes the strict
ordering unconditionally. -/
theorem parse_date_end_strictly_after_start (today : Int) (tw : Fin 7)
    (m : DateMatch) (s e : DateTimeVal)
    (h : parse_date today tw m = some (s, e)) :
    instant s < instant e := by
  unfold parse_date at h
  dsimp only at h
  split at h
  · exact absurd h (by simp)
  · split at h
    · exact absurd h (by simp)
    · split at h
      · split at h
        · exact absurd h (by simp)
        · simp only [Option.some.injEq, Prod.mk.injEq] at h
          obtain ⟨hs, he⟩ := h
          subst hs
          subst he
          exact instant_lt_bumpEnd _ _
      · simp only [Option.some.injEq, Prod.mk.injEq] at h
        obtain ⟨hs, he⟩ := h
        subst hs
        subst he
        exact instant_lt_bumpEnd _ _

/-- C4 witness: the strict ordering at the concrete parse of
"Heute um 20:00 UTC+0100" with reference date 0. -/
theorem parse_date_end_strictly_after_start_witness :
    parse_date 0 0 heuteMatch =
      some (⟨0, 20, 0, 60⟩, ⟨(0 : Int) + 1, 0, 0, 60⟩) ∧
    instant ⟨0, 20, 0, 60⟩ < instant ⟨(0 : Int) + 1, 0, 0, 60⟩ :=
  have h := parse_date_heute_eval 0 0
  ⟨h, parse_date_end_strictly_after_start 0 0 heuteMatch _ _ h⟩

/-- C5: a weekday-name dayword with no absolute date resolves via
`offset = weekdayIndex(dayword) - weekdayIndex(today)` bumped by 7 while
nonpositive, so the resolved date is strictly after today, and when today
is the named weekday the result is exactly today + 7. -/
theorem weekday_resolution_strictly_future (today : Int) (tw w : Fin 7) :
    today < parse_date_part today tw (Dayword.weekday w) none ∧
    (w = tw → parse_date_part today tw (Dayword.weekday w) none = today + 7) := by
  constructor
  · have := weekdayLoop_pos ((w : Int) - (tw : Int))
    show today < today + weekdayLoop ((w : Int) - (tw : Int))
    omega
  · intro hw
    subst hw
    show today + weekdayLoop ((w : Int) - (w : Int)) = today + 7
    rw [sub_self, weekdayLoop_zero]

/-- C5 witness: with reference date 0 on weekday 2, the dayword naming
weekday 2 resolves strictly into the future and exactly 7 days out. -/
theorem weekday_resolution_strictly_future_witness :
    (0 : Int) < parse_date_part 0 2 (Dayword.weekday 2) none ∧
    parse_date_part 0 2 (Dayword.weekday 2) none = 0 + 7 :=
  ⟨(weekday_resolution_strictly_future 0 2 2).1,
   (weekday_resolution_strictly_future 0 2 2).2 rfl⟩

/-- C6: the matched `UTC<offset>` substring is right-padded with `0` to a
fixed width of 8 characters (first conjunct: `pad_utc_offset` appends
`8 - length` zeros, reaching length exactly 8 whenever the match is at most
8 long); on a time string `HH:MM UTC<sign><digits>` the substitution pads
exactly that matched substring before it is parsed as sign, two-digit hour,
two-digit minute (second conjunct); and resolving
"Heute um 20:00 UTC+0100" yields start today 20:00 at fixed offset +01:00
and end at the following midnight in the same zone (third conjunct). -/
theorem utc_offset_padding_and_resolution :
    (∀ s : List Char,
      pad_utc_offset s = s ++ List.replicate (8 - s.length) '0' ∧
      (s.length ≤ 8 → (pad_utc_offset s).length = 8)) ∧
    (∀ (h1 h2 m1 m2 sign : Char) (ds : List Char),
      h1.isDigit → h2.isDigit → m1.isDigit → m2.isDigit →
      (sign = '+' ∨ sign = '-') → ds ≠ [] → (∀ c ∈ ds, c.isDigit) →
      fix_utc_offset ([h1, h2, ':', m1, m2, ' ', 'U', 'T', 'C', sign] ++ ds) =
        [h1, h2, ':', m1, m2, ' '] ++
          pad_utc_offset ('U' :: 'T' :: 'C' :: sign :: ds)) ∧
    (∀ (d : Int) (tw : Fin 7),
      parse_date d tw heuteMatch = some (⟨d, 20, 0, 60⟩, ⟨d + 1, 0, 0, 60⟩)) := by
  refine ⟨fun s => ⟨rfl, fun h => ?_⟩, fix_time_shape, parse_date_heute_eval⟩
  simp [pad_utc_offset, ljust]
  omega

/-- C6 witness: the padding evaluated at the undersized offset `UTC+1`, the
substitution evaluated on the concrete time string `20:00 UTC+0100`, and
the resolution of "Heute um 20:00 UTC+0100" at reference date 0. -/
theorem utc_offset_padding_and_resolution_witness :
    (pad_utc_offset (("UTC+1").toList)).length = 8 ∧
    fix_utc_offset (['2', '0', ':', '0', '0', ' ', 'U', 'T', 'C', '+'] ++
        ['0', '1', '0', '0']) =
      ['2', '0', ':', '0', '0', ' '] ++
        pad_utc_offset ('U' :: 'T' :: 'C' :: '+' :: ['0', '1', '0', '0']) ∧
    parse_date 0 0 heuteMatch =
      some (⟨0, 20, 0, 60⟩, ⟨(0 : Int) + 1, 0, 0, 60⟩) :=
  ⟨(utc_offset_padding_and_resolution.1 (("UTC+1").toList)).2 (by decide),
   utc_offset_padding_and_resolution.2.1 '2' '0' '0' '0' '+' ['0', '1', '0', '0']
     (by decide) (by decide) (by decide) (by decide) (Or.inl rfl) (by decide)
     (by decide),
   utc_offset_padding_and_resolution.2.2 0 0⟩

/-- C7: `compare_vevents` returns true iff every key in the union of the two
field sets is either the volatile `dtstamp` key (case-insensitively) or is
present on both sides with equal decoded values (first conjunct, a
membership-level characterization, hence independent of field iteration
order); a non-volatile key present on only one side forces the result false
(second conjunct); and the true/false outcome is symmetric under swapping
the arguments (third conjunct). -/
theorem compare_vevents_spec {V : Type} [DecidableEq V]
    (e1 e2 : List (List Char × V)) :
    (compare_vevents e1 e2 = true ↔
      ∀ k, k ∈ fieldKeys e1 ∨ k ∈ fieldKeys e2 →
        (pyLower k = ("dtstamp").toList ∨
          ∃ v, getField e1 k = some v ∧ getField e2 k = some v)) ∧
    (∀ k, k ∈ fieldKeys e1 → k ∉ fieldKeys e2 →
      pyLower k ≠ ("dtstamp").toList → compare_vevents e1 e2 = false) ∧
    compare_vevents e1 e2 = compare_vevents e2 e1 :=
  ⟨compare_vevents_eq_true_iff e1 e2,
   fun k h1 h2 hd => compare_vevents_one_sided e1 e2 k h1 h2 hd,
   compare_vevents_symm e1 e2⟩

/-- C7 witness: the one-sided-key consequence and the symmetry applied to a
concrete pair of records with the single non-volatile field `A`. -/
theorem compare_vevents_spec_witness :
    compare_vevents [(['A'], (0 : Nat))] ([] : List (List Char × Nat)) = false ∧
    compare_vevents [(['A'], (0 : Nat))] ([] : List (List Char × Nat)) =
      compare_vevents ([] : List (List Char × Nat)) [(['A'], (0 : Nat))] :=
  ⟨(compare_vevents_spec [(['A'], (0 : Nat))] ([] : List (List Char × Nat))).2.1
      ['A'] (by decide) (by decide) (by decide),
   (compare_vevents_spec [(['A'], (0 : Nat))] ([] : List (List Char × Nat))).2.2⟩

/-- C8: writing a new event stamps the current instant and writes the
screenshot (first conjunct; second conjunct exhibits the stamped
`DTSTAMP`); re-writing the same raw input against the stored snapshot
reuses the previous `DTSTAMP`, so the durable content is identical to the
prior run's and the screenshot is not rewritten (third conjunct); when the
content changed the fresh event — carrying the new timestamp — is written
and the screenshot is rewritten (fourth conjunct). -/
theorem write_event_idempotent (t0 t1 : Int) (e : EventData) (b : List Nat)
    (hs : e.screenshot = some b) :
    write_event t0 (Except.error ReadErr.fileNotFound) e =
      some ⟨create_vevent t0 e, some b, false⟩ ∧
    (∀ (now : Int) (e2 : EventData),
      getField (create_vevent now e2) ['D','T','S','T','A','M','P'] =
        some (VVal.stamp now)) ∧
    write_event t1 (Except.ok (create_vevent t0 e)) e =
      some ⟨create_vevent t0 e, none, false⟩ ∧
    (∀ (t2 : Int) (e2 : EventData) (b2 : List Nat), e2.screenshot = some b2 →
      compare_vevents (create_vevent t2 e2) (create_vevent t0 e) = false →
      write_event t2 (Except.ok (create_vevent t0 e)) e2 =
        some ⟨create_vevent t2 e2, some b2, false⟩) := by
  refine ⟨?_, getField_create_dtstamp, ?_, ?_⟩
  · simp [write_event, fix_dtstamp, hs]
  · simp [write_event, fix_dtstamp_unchanged t1 t0 e]
  · intro t2 e2 b2 hs2 hcmp
    simp [write_event, fix_dtstamp, hcmp, hs2]

/-- C8 witness: the idempotence contract applied to the concrete sample
event, whose screenshot is `[1, 2, 3]`. -/
theorem write_event_idempotent_witness :
    write_event 0 (Except.error ReadErr.fileNotFound) sampleEvent =
      some ⟨create_vevent 0 sampleEvent, some [1, 2, 3], false⟩ ∧
    (∀ (now : Int) (e2 : EventData),
      getField (create_vevent now e2) ['D','T','S','T','A','M','P'] =
        some (VVal.stamp now)) ∧
    write_event 1 (Except.ok (create_vevent 0 sampleEvent)) sampleEvent =
      some ⟨create_vevent 0 sampleEvent, none, false⟩ ∧
    (∀ (t2 : Int) (e2 : EventData) (b2 : List Nat), e2.screenshot = some b2 →
      compare_vevents (create_vevent t2 e2) (create_vevent 0 sampleEvent) = false →
      write_event t2 (Except.ok (create_vevent 0 sampleEvent)) e2 =
        some ⟨create_vevent t2 e2, some b2, false⟩) :=
  write_event_idempotent 0 1 sampleEvent [1, 2, 3] rfl

/-- C9: a prior snapshot that is missing or unparseable never surfaces to
the caller of `write_event`: `_fix_dtstamp` classifies the record as
changed (returns `False`), the durable file holds the freshly built event,
and its write timestamp is the current instant. -/
theorem read_failure_treated_as_new_event (now : Int) (e : EventData)
    (err : ReadErr) :
    fix_dtstamp (Except.error err) (create_vevent now e) =
      some (create_vevent now e, false) ∧
    (∃ r : WriteResult, write_event now (Except.error err) e = some r ∧
      r.ics = create_vevent now e) ∧
    getField (create_vevent now e) ['D','T','S','T','A','M','P'] =
      some (VVal.stamp now) := by
  refine ⟨rfl, ?_, getField_create_dtstamp now e⟩
  cases hs : e.screenshot with
  | none =>
    exact ⟨⟨create_vevent now e, none, true⟩,
      by simp [write_event, fix_dtstamp, hs], rfl⟩
  | some b =>
    exact ⟨⟨create_vevent now e, some b, false⟩,
      by simp [write_event, fix_dtstamp, hs], rfl⟩

/-- C10: a record classified as changed (or new) whose screenshot is `None`
makes `write_event` raise (`TypeError` from `tmp.write(None)`) after the
durable file has been written: in the result the `.ics` content is present,
no screenshot is written, and the raised flag is set. -/
theorem write_event_missing_screenshot_raises (now : Int)
    (prior : Except ReadErr VEvent) (e : EventData) (v : VEvent)
    (hs : e.screenshot = none)
    (hfix : fix_dtstamp prior (create_vevent now e) = some (v, false)) :
    write_event now prior e = some ⟨v, none, true⟩ := by
  simp [write_event, hfix, hs]

/-- C10 witness: writing the sample event without a screenshot as a new
event raises after the durable file is written. -/
theorem write_event_missing_screenshot_raises_witness :
    write_event 0 (Except.error ReadErr.fileNotFound) sampleEventNoShot =
      some ⟨create_vevent 0 sampleEventNoShot, none, true⟩ :=
  write_event_missing_screenshot_raises 0 (Except.error ReadErr.fileNotFound)
    sampleEventNoShot (create_vevent 0 sampleEventNoShot) rfl rfl

end Fbscrape
